import Mathlib

/-!
Shallow embedding of the ByteBowl food-ordering backend core
(`backend/db_helper.py` and the cart-manipulating handlers of
`backend/main.py`).

The relational state is modelled as lists of rows, in insertion order:
`food_items(item_id, name, price)`, `session_orders(session_id, item_id,
quantity)`, `orders(order_id, item_id, quantity, total_price)` and
`order_tracking(order_id, status)`.  SQL `SELECT ... LIMIT 1` /
`fetchone()` without `ORDER BY` is modelled as the first row in table
order; `INSERT ... ON DUPLICATE KEY UPDATE` on the unique key
`(session_id, item_id)` is modelled as an in-place update when a row
with that key exists and an append otherwise.  Prices are rationals
(the source multiplies a decimal price by an integer quantity).
Python dicts become association lists whose keys are unique.
-/

namespace ByteBowl

/-- A row of `food_items`. -/
structure MenuItem where
  item_id : Nat
  name : String
  price : Rat
deriving DecidableEq

/-- A row of `session_orders`. -/
structure CartLine where
  session_id : String
  item_id : Nat
  quantity : Int
deriving DecidableEq

/-- A row of `orders`. -/
structure OrderLine where
  order_id : Nat
  item_id : Nat
  quantity : Int
  total_price : Rat
deriving DecidableEq

/-- A row of `order_tracking`. -/
structure TrackingEntry where
  order_id : Nat
  status : String
deriving DecidableEq

/-- The whole relational state. -/
structure DB where
  food_items : List MenuItem
  session_orders : List CartLine
  orders : List OrderLine
  order_tracking : List TrackingEntry
deriving DecidableEq

/-- `SELECT item_id, price FROM food_items WHERE name = %s` (first row):
exact, case-sensitive name resolution, as used by the add/batch path and
by `finalize_order_and_get_total`. -/
def lookupItem (db : DB) (name : String) : Option MenuItem :=
  db.food_items.find? (fun m => m.name == name)

/-- `SELECT MAX(order_id) FROM orders`: `none` when the table is empty. -/
def maxOrderId : List OrderLine → Option Nat
  | [] => none
  | o :: rest =>
    match maxOrderId rest with
    | none => some o.order_id
    | some m => some (max o.order_id m)

/-- `get_next_order_id` (db_helper.py:51-62): `1` when `orders` is empty,
otherwise `MAX(order_id) + 1`.  `finalize_order_and_get_total` runs the
same query inline (db_helper.py:279-281). -/
def get_next_order_id (db : DB) : Nat :=
  match maxOrderId db.orders with
  | none => 1
  | some m => m + 1

/-- One `INSERT INTO session_orders ... ON DUPLICATE KEY UPDATE
quantity = quantity + VALUES(quantity)` against the unique key
`(session_id, item_id)`: merge into the existing row, else append. -/
def upsertLine (lines : List CartLine) (s : String) (iid : Nat) (q : Int) :
    List CartLine :=
  if lines.any (fun l => l.session_id == s && l.item_id == iid) then
    lines.map (fun l =>
      if l.session_id == s && l.item_id == iid then
        { l with quantity := l.quantity + q }
      else l)
  else
    lines ++ [⟨s, iid, q⟩]

/-- `update_session_order_batch` (db_helper.py:128-169).  An empty dict
returns `True` untouched; names are resolved in one pass against
`food_items`; unresolvable names are filtered out; if nothing resolves
the call returns `False` and writes nothing; otherwise each resolved
`(session, item, qty)` is upserted and the call returns `True`.
The boolean is the entire reported outcome. -/
def update_session_order_batch (db : DB) (session_id : String)
    (items_dict : List (String × Int)) : Bool × DB :=
  if items_dict.isEmpty then (true, db)
  else
    let valid_items := items_dict.filter (fun p => (lookupItem db p.1).isSome)
    if valid_items.isEmpty then (false, db)
    else
      let newLines := valid_items.foldl (fun acc p =>
        match lookupItem db p.1 with
        | some m => upsertLine acc session_id m.item_id p.2
        | none => acc) db.session_orders
      (true, { db with session_orders := newLines })

/-- `update_session_order` (db_helper.py:171-173): literally a
single-item batch. -/
def update_session_order (db : DB) (session_id : String) (item : String)
    (quantity : Int) : Bool × DB :=
  update_session_order_batch db session_id [(item, quantity)]

/-- `get_session_order` (db_helper.py:175-191): join the session's cart
lines back to item names (inner join on `item_id`, first matching
`food_items` row). -/
def get_session_order (db : DB) (session_id : String) : List (String × Int) :=
  (db.session_orders.filter (fun l => l.session_id == session_id)).filterMap
    (fun l => (db.food_items.find? (fun m => m.item_id == l.item_id)).map
      (fun m => (m.name, l.quantity)))

/-- `clear_session_order` (db_helper.py:193-204): delete every cart line
of the session. -/
def clear_session_order (db : DB) (session_id : String) : Bool × DB :=
  (true,
   { db with session_orders :=
      db.session_orders.filter (fun l => !(l.session_id == session_id)) })

/-- `startsWithNats needle hay`: the list `needle` is an initial segment
of `hay`. -/
def startsWithNats : List Nat → List Nat → Bool
  | [], _ => true
  | _ :: _, [] => false
  | a :: as, b :: bs => a == b && startsWithNats as bs

/-- `hasSubNats needle hay`: `needle` occurs contiguously inside `hay`. -/
def hasSubNats (needle : List Nat) : List Nat → Bool
  | [] => needle.isEmpty
  | c :: rest => startsWithNats needle (c :: rest) || hasSubNats needle rest

/-- `LOWER`: the ASCII-lowercased codepoints of a string (menu names are
ASCII). -/
def lowerCodes (s : String) : List Nat :=
  s.data.map (fun c =>
    if 65 ≤ c.toNat ∧ c.toNat ≤ 90 then c.toNat + 32 else c.toNat)

/-- `LOWER(hay) LIKE LOWER('%needle%')`: case-insensitive substring
containment (menu names carry no SQL wildcards). -/
def likeContains (hay needle : String) : Bool :=
  hasSubNats (lowerCodes needle) (lowerCodes hay)

/-- The fallback predicate of the second query in
`remove_from_session_order` (db_helper.py:228-235):
`LOWER(f.name) LIKE LOWER('%item%') OR LOWER(item) LIKE
LOWER(CONCAT('%', f.name, '%'))`. -/
def fuzzyMatch (item : String) (m : MenuItem) : Bool :=
  likeContains m.name item || likeContains item m.name

/-- Name resolution as performed by `remove_from_session_order`
(db_helper.py:216-235): exact match first, then the case-insensitive
partial-match fallback, each `LIMIT 1` in table order. -/
def resolveForRemove (db : DB) (item : String) : Option MenuItem :=
  match db.food_items.find? (fun m => m.name == item) with
  | some m => some m
  | none => db.food_items.find? (fuzzyMatch item)

/-- `COALESCE(s.quantity, 0)` of the `LEFT JOIN` in
`remove_from_session_order`: the session's cart quantity for an item id,
`0` when no line exists. -/
def cartQty (db : DB) (session_id : String) (iid : Nat) : Int :=
  match db.session_orders.find?
      (fun l => l.session_id == session_id && l.item_id == iid) with
  | some l => l.quantity
  | none => 0

/-- `remove_from_session_order` (db_helper.py:206-270).  Resolution is
exact-then-fuzzy; an unresolved name or a zero joined quantity gives
`"not_found"`; a current quantity strictly above the requested one is
decremented in place (`"removed"`); otherwise the line is deleted
(`"all_removed"`). -/
def remove_from_session_order (db : DB) (session_id item : String)
    (qty : Int) : String × DB :=
  match resolveForRemove db item with
  | none => ("not_found", db)
  | some m =>
    let current_qty := cartQty db session_id m.item_id
    if current_qty = 0 then ("not_found", db)
    else if current_qty > qty then
      ("removed",
       { db with session_orders := db.session_orders.map (fun l =>
          if l.session_id == session_id && l.item_id == m.item_id then
            { l with quantity := l.quantity - qty }
          else l) })
    else
      ("all_removed",
       { db with session_orders := db.session_orders.filter (fun l =>
          !(l.session_id == session_id && l.item_id == m.item_id)) })

/-- The order lines `finalize_order_and_get_total` prepares from a
snapshot: one `(order_id, item_id, qty, price*qty)` row per snapshot
entry whose name resolves exactly, in snapshot order
(db_helper.py:293-304). -/
def orderLinesOf (db : DB) (order_id : Nat)
    (order_dict : List (String × Int)) : List OrderLine :=
  order_dict.filterMap (fun p =>
    (lookupItem db p.1).map (fun m =>
      ⟨order_id, m.item_id, p.2, m.price * (p.2 : Rat)⟩))

/-- `finalize_order_and_get_total` (db_helper.py:272-327).  Allocates
`MAX(order_id)+1` (or 1), resolves the snapshot's names, skips
unresolvable ones, and on an empty snapshot or an all-unresolvable
snapshot returns `(None, 0)` without writing.  Otherwise it inserts the
order lines, one `"in progress"` tracking row, deletes the session's
cart lines, and returns the id and the grand total. -/
def finalize_order_and_get_total (db : DB) (session_id : String)
    (order_dict : List (String × Int)) : Option Nat × Rat × DB :=
  let order_id := get_next_order_id db
  if order_dict.isEmpty then (none, 0, db)
  else
    let order_items := orderLinesOf db order_id order_dict
    if order_items.isEmpty then (none, 0, db)
    else
      (some order_id,
       (order_items.map (fun o => o.total_price)).sum,
       { db with
          orders := db.orders ++ order_items
          order_tracking := db.order_tracking ++ [⟨order_id, "in progress"⟩]
          session_orders := db.session_orders.filter
            (fun l => !(l.session_id == session_id)) })

/-- `insert_order_tracking` (db_helper.py:88-98): append one tracking
row. -/
def insert_order_tracking (db : DB) (order_id : Nat) (status : String) : DB :=
  { db with order_tracking := db.order_tracking ++ [⟨order_id, status⟩] }

/-- `get_order_status` (db_helper.py:100-111): `SELECT status FROM
order_tracking WHERE order_id = %s` then `fetchone()` — the first
matching row in table order, `none` when there is none. -/
def get_order_status (db : DB) (order_id : Nat) : Option String :=
  (db.order_tracking.find? (fun t => t.order_id == order_id)).map
    (fun t => t.status)

/-- `get_total_order_price` (db_helper.py:113-124): `SUM(total_price)`
over the order's lines, `0` when there are none. -/
def get_total_order_price (db : DB) (order_id : Nat) : Rat :=
  ((db.orders.filter (fun o => o.order_id == order_id)).map
    (fun o => o.total_price)).sum

/-- Outcome of the `complete_order` webhook handler. -/
inductive CompleteResult
  | emptyCart
  | failed
  | placed (order_id : Nat) (total : Rat)
deriving DecidableEq

/-- `complete_order` (main.py:86-123): snapshot the cart; an empty
snapshot answers without touching the store; otherwise finalize, and a
`None` order id is reported as failure. -/
def complete_order (db : DB) (session_id : String) : CompleteResult × DB :=
  let order := get_session_order db session_id
  if order.isEmpty then (CompleteResult.emptyCart, db)
  else
    match finalize_order_and_get_total db session_id order with
    | (none, _, db') => (CompleteResult.failed, db')
    | (some oid, total, db') => (CompleteResult.placed oid total, db')

/-- A quantity slot as received by the add-items handler: a number, or a
value `int()` rejects with `ValueError`/`TypeError`. -/
inductive QVal
  | num (n : Int)
  | bad
deriving DecidableEq

/-- `while len(quantities) < len(food_items): quantities.append(1)`
(main.py:140-141). -/
def padQuantities (quantities : List QVal) (n : Nat) : List QVal :=
  quantities ++ List.replicate (n - quantities.length) (QVal.num 1)

/-- Python dict assignment `d[k] = v`: overwrite the existing binding,
else append. -/
def dictInsert (d : List (String × Int)) (k : String) (v : Int) :
    List (String × Int) :=
  if d.any (fun p => p.1 == k) then
    d.map (fun p => if p.1 == k then (k, v) else p)
  else d ++ [(k, v)]

/-- Python dict lookup `d.get(k)`. -/
def dictGet (d : List (String × Int)) (k : String) : Option Int :=
  (d.find? (fun p => p.1 == k)).map (fun p => p.2)

/-- The quantity `add_to_order` ends up using for one slot: the parsed
number, or 1 when `int()` raises. -/
def effQty : QVal → Int
  | QVal.num n => n
  | QVal.bad => 1

/-- The `items_to_add` dict built by `add_to_order` (main.py:139-154):
quantities are padded with `1` up to the item count, then each item is
entered with `int(quantities[i])`, falling back to `1` when the parse
raises. -/
def buildItemsToAdd (food_items : List String) (quantities : List QVal) :
    List (String × Int) :=
  (food_items.zip (padQuantities quantities food_items.length)).foldl
    (fun acc p =>
      match p.2 with
      | QVal.num n => dictInsert acc p.1 n
      | QVal.bad => dictInsert acc p.1 1) []

/-- One cart-mutating operation, for invariant reasoning over arbitrary
interleavings. -/
inductive CartOp
  | add (item : String) (qty : Int)
  | addBatch (items : List (String × Int))
  | remove (item : String) (qty : Int)
  | clear

/-- Apply one operation for a given session. -/
def applyOp (db : DB) (s : String) : CartOp → DB
  | CartOp.add item qty => (update_session_order db s item qty).2
  | CartOp.addBatch items => (update_session_order_batch db s items).2
  | CartOp.remove item qty => (remove_from_session_order db s item qty).2
  | CartOp.clear => (clear_session_order db s).2

/-- Apply a sequence of (session, operation) pairs. -/
def applyOps (db : DB) : List (String × CartOp) → DB
  | [] => db
  | (s, op) :: rest => applyOps (applyOp db s op) rest

/-- The key list of a cart table. -/
def cartKeys (lines : List CartLine) : List (String × Nat) :=
  lines.map (fun l => (l.session_id, l.item_id))

/-- The uniqueness invariant: at most one cart line per
`(session_id, item_id)` pair. -/
def CartKeysNodup (lines : List CartLine) : Prop :=
  (cartKeys lines).Nodup

/-- A three-item menu used by the concrete instances below. -/
def sampleMenu : List MenuItem :=
  [⟨1, "Pizza", 100⟩, ⟨2, "Samosa", 20⟩, ⟨3, "Chole Bhature", 60⟩]

/-- One menu item, two "Pizza" in the cart of session `s2`. -/
def cdb2 : DB := ⟨[⟨1, "Pizza", 100⟩], [⟨"s2", 1, 2⟩], [], []⟩

/-- One menu item, one "Pizza" in the cart of session `s6`. -/
def cdb6 : DB := ⟨[⟨1, "Pizza", 100⟩], [⟨"s6", 1, 1⟩], [], []⟩

/-- The sample menu with empty cart and empty ledger. -/
def cdb7 : DB := ⟨sampleMenu, [], [], []⟩

/-- Session `s8` has two "Pizza" in its cart; the ledger is empty. -/
def cdb8a : DB := ⟨sampleMenu, [⟨"s8", 1, 2⟩], [], []⟩

/-- The state after session `s8` completes its order (order id 1). -/
def cdb8b : DB := (complete_order cdb8a "s8").2

/-- The state after a second tracking row `"delivered"` is appended for
order 1 via `insert_order_tracking`. -/
def cdb8c : DB := insert_order_tracking cdb8b 1 "delivered"

/-- A state whose ledger already holds order 5. -/
def wdb4 : DB :=
  ⟨sampleMenu, [⟨"w4", 1, 1⟩], [⟨5, 1, 1, 100⟩], [⟨5, "in progress"⟩]⟩

/-- A state whose only cart line points at an item id absent from the
menu, so the session's snapshot is empty. -/
def wdb5 : DB := ⟨sampleMenu, [⟨"w5", 9, 1⟩], [], []⟩

/-- Session `s` holds three "Pizza". -/
def wdb2 : DB := ⟨sampleMenu, [⟨"s", 1, 3⟩], [], []⟩

/-- Session `w` holds two "Pizza" and one "Chole Bhature"; order 4 is
already in the ledger. -/
def wdb1 : DB :=
  ⟨sampleMenu, [⟨"w", 1, 2⟩, ⟨"w", 3, 1⟩], [⟨4, 2, 1, 20⟩],
   [⟨4, "in progress"⟩]⟩

/-! ## Supporting lemmas -/

theorem maxOrderId_nil : maxOrderId [] = none := rfl

theorem maxOrderId_cons (o : OrderLine) (tl : List OrderLine) :
    maxOrderId (o :: tl) =
      match maxOrderId tl with
      | none => some o.order_id
      | some m => some (max o.order_id m) := rfl

theorem le_maxOrderId {l : List OrderLine} {o : OrderLine} (h : o ∈ l) :
    ∃ m, maxOrderId l = some m ∧ o.order_id ≤ m := by
  induction l with
  | nil => cases h
  | cons hd tl ih =>
    rcases List.mem_cons.mp h with rfl | hmem
    · cases htl : maxOrderId tl with
      | none => exact ⟨o.order_id, by rw [maxOrderId_cons]; simp [htl], le_refl _⟩
      | some m =>
        exact ⟨max o.order_id m, by rw [maxOrderId_cons]; simp [htl], le_max_left _ _⟩
    · obtain ⟨m, hm, hle⟩ := ih hmem
      exact ⟨max hd.order_id m, by rw [maxOrderId_cons]; simp [hm],
        le_trans hle (le_max_right _ _)⟩

theorem maxOrderId_mem {l : List OrderLine} {m : Nat} (h : maxOrderId l = some m) :
    ∃ o ∈ l, o.order_id = m := by
  induction l generalizing m with
  | nil => rw [maxOrderId_nil] at h; cases h
  | cons hd tl ih =>
    rw [maxOrderId_cons] at h
    cases htl : maxOrderId tl with
    | none =>
      simp only [htl] at h
      injection h with h
      exact ⟨hd, List.mem_cons_self _ _, h⟩
    | some m' =>
      simp only [htl] at h
      injection h with h
      rcases max_cases hd.order_id m' with ⟨heq, _⟩ | ⟨heq, _⟩
      · exact ⟨hd, List.mem_cons_self _ _, by rw [← h, heq]⟩
      · obtain ⟨o, ho, hoid⟩ := ih htl
        exact ⟨o, List.mem_cons_of_mem _ ho, by rw [hoid, ← h, heq]⟩

theorem maxOrderId_isSome {l : List OrderLine} (h : l ≠ []) :
    ∃ m, maxOrderId l = some m := by
  cases l with
  | nil => exact absurd rfl h
  | cons hd tl =>
    cases htl : maxOrderId tl with
    | none => exact ⟨hd.order_id, by rw [maxOrderId_cons]; simp [htl]⟩
    | some m' => exact ⟨max hd.order_id m', by rw [maxOrderId_cons]; simp [htl]⟩

theorem order_id_lt_next {db : DB} {o : OrderLine} (h : o ∈ db.orders) :
    o.order_id < get_next_order_id db := by
  obtain ⟨m, hm, hle⟩ := le_maxOrderId h
  simp only [get_next_order_id, hm]
  omega

theorem finalize_eq (db : DB) (s : String) (dict : List (String × Int)) :
    finalize_order_and_get_total db s dict =
      if dict.isEmpty then (none, 0, db)
      else if (orderLinesOf db (get_next_order_id db) dict).isEmpty then (none, 0, db)
      else
        (some (get_next_order_id db),
         ((orderLinesOf db (get_next_order_id db) dict).map (fun o => o.total_price)).sum,
         { db with
            orders := db.orders ++ orderLinesOf db (get_next_order_id db) dict
            order_tracking := db.order_tracking ++ [⟨get_next_order_id db, "in progress"⟩]
            session_orders := db.session_orders.filter
              (fun l => !(l.session_id == s)) }) := rfl

theorem finalize_success_inv {db : DB} {s : String} {dict : List (String × Int)}
    {oid : Nat} {total : Rat} {db' : DB}
    (h : finalize_order_and_get_total db s dict = (some oid, total, db')) :
    oid = get_next_order_id db ∧
    total = ((orderLinesOf db (get_next_order_id db) dict).map (fun o => o.total_price)).sum ∧
    db' = { db with
            orders := db.orders ++ orderLinesOf db (get_next_order_id db) dict
            order_tracking := db.order_tracking ++ [⟨get_next_order_id db, "in progress"⟩]
            session_orders := db.session_orders.filter
              (fun l => !(l.session_id == s)) } := by
  rw [finalize_eq] at h
  split at h
  · simp at h
  · split at h
    · simp at h
    · simp only [Prod.mk.injEq, Option.some.injEq] at h
      exact ⟨h.1.symm, h.2.1.symm, h.2.2.symm⟩

theorem finalize_failure_inv {db : DB} {s : String} {dict : List (String × Int)}
    {total : Rat} {db' : DB}
    (h : finalize_order_and_get_total db s dict = (none, total, db')) :
    total = 0 ∧ db' = db := by
  rw [finalize_eq] at h
  split at h
  · simp only [Prod.mk.injEq] at h
    exact ⟨h.2.1.symm, h.2.2.symm⟩
  · split at h
    · simp only [Prod.mk.injEq] at h
      exact ⟨h.2.1.symm, h.2.2.symm⟩
    · simp at h

theorem find?_eq_head_filter {α : Type _} (p : α → Bool) (l : List α) :
    l.find? p = (l.filter p).head? := by
  induction l with
  | nil => rfl
  | cons hd tl ih =>
    by_cases h : p hd
    · rw [List.find?_cons_of_pos _ h, List.filter_cons_of_pos h]
      rfl
    · rw [List.find?_cons_of_neg _ h, List.filter_cons_of_neg h, ih]

/-! ## Claim theorems -/

/-- C9: the single-item `update_session_order` is the one-element batch,
definitionally: same resulting state and same reported outcome. -/
theorem update_session_order_is_singleton_batch (db : DB) (s item : String)
    (qty : Int) :
    update_session_order db s item qty =
      update_session_order_batch db s [(item, qty)] := rfl

/-- C4: order id allocation returns 1 on an empty ledger and otherwise
one more than some existing (maximal) order id, every existing order id
is strictly below it, and every id returned by a successful finalize is
strictly greater than every order id previously in the ledger. -/
theorem order_id_allocation_monotonic :
    (∀ db : DB, db.orders = [] → get_next_order_id db = 1) ∧
    (∀ db : DB, ∀ o ∈ db.orders, o.order_id < get_next_order_id db) ∧
    (∀ db : DB, db.orders ≠ [] →
      ∃ o ∈ db.orders, get_next_order_id db = o.order_id + 1) ∧
    (∀ (db : DB) (s : String) (dict : List (String × Int)) (oid : Nat)
      (total : Rat) (db' : DB),
      finalize_order_and_get_total db s dict = (some oid, total, db') →
      ∀ o ∈ db.orders, o.order_id < oid) := by
  refine ⟨?_, ?_, ?_, ?_⟩
  · intro db h
    simp [get_next_order_id, h, maxOrderId]
  · intro db o ho
    exact order_id_lt_next ho
  · intro db h
    obtain ⟨m, hm⟩ := maxOrderId_isSome h
    obtain ⟨o, ho, hoid⟩ := maxOrderId_mem hm
    exact ⟨o, ho, by simp [get_next_order_id, hm, hoid]⟩
  · intro db s dict oid total db' h o ho
    obtain ⟨h1, _, _⟩ := finalize_success_inv h
    rw [h1]
    exact order_id_lt_next ho

/-- C4 witness: in `wdb4` the ledger holds order 5, allocation returns 6,
and 5 is strictly below it. -/
theorem order_id_allocation_monotonic_witness :
    get_next_order_id wdb4 = 6 ∧ (5 : Nat) < get_next_order_id wdb4 :=
  ⟨rfl, order_id_allocation_monotonic.2.1 wdb4 ⟨5, 1, 1, 100⟩ (by decide)⟩

/-- C5: a finalize that fails (empty snapshot, or every snapshot line
unresolvable) leaves the state untouched — no order lines, no tracking
row, the cart uncleared — and a later allocation yields the same next
order id; an empty snapshot makes `complete_order` answer `emptyCart`
without touching the store. -/
theorem failed_finalize_writes_nothing :
    (∀ (db : DB) (s : String), get_session_order db s = [] →
      complete_order db s = (CompleteResult.emptyCart, db)) ∧
    (∀ (db : DB) (s : String) (dict : List (String × Int)) (total : Rat)
      (db' : DB),
      finalize_order_and_get_total db s dict = (none, total, db') →
      db' = db ∧ total = 0 ∧ get_next_order_id db' = get_next_order_id db) ∧
    (∀ (db : DB) (s : String) (dict : List (String × Int)), dict ≠ [] →
      (∀ p ∈ dict, lookupItem db p.1 = none) →
      finalize_order_and_get_total db s dict = (none, 0, db)) := by
  refine ⟨?_, ?_, ?_⟩
  · intro db s h
    simp [complete_order, h]
  · intro db s dict total db' h
    obtain ⟨h1, h2⟩ := finalize_failure_inv h
    exact ⟨h2, h1, by rw [h2]⟩
  · intro db s dict hne hall
    have hlines : orderLinesOf db (get_next_order_id db) dict = [] := by
      simp only [orderLinesOf, List.filterMap_eq_nil_iff]
      intro p hp
      rw [hall p hp]
      rfl
    rw [finalize_eq, if_neg (by simpa [List.isEmpty_iff] using hne),
      if_pos (by simp [hlines])]

/-- C5 witness: in `wdb5` the session's snapshot is empty (its only cart
line has no matching menu item), so `complete_order` reports an empty
cart and leaves the state unchanged. -/
theorem failed_finalize_writes_nothing_witness :
    complete_order wdb5 "w5" = (CompleteResult.emptyCart, wdb5) :=
  failed_finalize_writes_nothing.1 wdb5 "w5" (by decide)

/-- C7 counterexample: a batch containing the unresolvable name "Junk"
yields exactly the same outcome (boolean and state) as the batch without
it — the skipped name is not reported, let alone as a structured list. -/
theorem batch_outcome_drops_skipped_names :
    lookupItem cdb7 "Junk" = none ∧
    (lookupItem cdb7 "Pizza").isSome = true ∧
    update_session_order_batch cdb7 "s" [("Pizza", 1), ("Junk", 2)] =
      update_session_order_batch cdb7 "s" [("Pizza", 1)] ∧
    (update_session_order_batch cdb7 "s" [("Pizza", 1), ("Junk", 2)]).1 = true := by
  decide

/-- C7 (amended): `update_session_order_batch` merges the resolvable
items and silently skips unresolvable names; its whole reported outcome
is one boolean — `true` iff the batch is empty or at least one name
resolves — and a `false` outcome leaves the state unchanged. -/
theorem batch_boolean_outcome (db : DB) (s : String)
    (items : List (String × Int)) :
    ((update_session_order_batch db s items).1 = true ↔
      (items = [] ∨ ∃ p ∈ items, (lookupItem db p.1).isSome)) ∧
    ((update_session_order_batch db s items).1 = false →
      (update_session_order_batch db s items).2 = db) := by
  by_cases he : items = []
  · subst he
    refine ⟨by simp [update_session_order_batch], ?_⟩
    intro hfalse
    simp [update_session_order_batch] at hfalse
  · have he' : ¬(items.isEmpty = true) := by simp [List.isEmpty_iff, he]
    by_cases hv : items.filter (fun p => (lookupItem db p.1).isSome) = []
    · have hres : update_session_order_batch db s items = (false, db) := by
        simp only [update_session_order_batch]
        rw [if_neg he', if_pos (by simp [hv])]
      rw [hres]
      constructor
      · constructor
        · intro h
          exact absurd h (Bool.false_ne_true)
        · rintro (rfl | ⟨p, hp, hsome⟩)
          · exact absurd rfl he
          · exact absurd hsome (List.filter_eq_nil_iff.mp hv p hp)
      · intro _
        rfl
    · have hv' : ¬((items.filter (fun p => (lookupItem db p.1).isSome)).isEmpty = true) := by
        simp [List.isEmpty_iff, hv]
      have h1 : (update_session_order_batch db s items).1 = true := by
        simp only [update_session_order_batch]
        rw [if_neg he', if_neg hv']
      have hex : ∃ p ∈ items, (lookupItem db p.1).isSome := by
        rcases hfe : items.filter (fun p => (lookupItem db p.1).isSome) with _ | ⟨q, rest⟩
        · exact absurd hfe hv
        · have hq : q ∈ items.filter (fun p => (lookupItem db p.1).isSome) := by
            rw [hfe]
            exact List.mem_cons_self _ _
          obtain ⟨hqm, hqs⟩ := List.mem_filter.mp hq
          exact ⟨q, hqm, hqs⟩
      constructor
      · rw [h1]
        exact ⟨fun _ => Or.inr hex, fun _ => rfl⟩
      · intro hfalse
        rw [h1] at hfalse
        exact absurd hfalse (by decide)

/-- C7 (amended) witness: on `cdb7` the mixed batch reports `true`. -/
theorem batch_boolean_outcome_witness :
    (update_session_order_batch cdb7 "s" [("Pizza", 1), ("Junk", 2)]).1 = true :=
  (batch_boolean_outcome cdb7 "s" [("Pizza", 1), ("Junk", 2)]).1.mpr
    (Or.inr ⟨("Pizza", 1), by decide⟩)

/-- C8 counterexample: after a finalize writes `"in progress"` for order
1 and `insert_order_tracking` appends `"delivered"`, the most recently
written entry is `"delivered"` yet `get_order_status` returns the first
row, `"in progress"`. -/
theorem get_order_status_first_not_latest :
    cdb8c.order_tracking = [⟨1, "in progress"⟩, ⟨1, "delivered"⟩] ∧
    (cdb8c.order_tracking.filter (fun t => t.order_id == 1)).getLast? =
      some ⟨1, "delivered"⟩ ∧
    get_order_status cdb8c 1 = some "in progress" := by
  decide

/-- C8 (amended): `get_order_status` returns the status of the
first-written tracking entry for the order id (the head of the filtered
trail), `none` when no entry exists; when exactly one entry exists —
the only situation the webhook flow itself produces — that first entry
is also the most recent one and its status is returned.  The query is
read-only, so repeated calls agree. -/
theorem get_order_status_spec (db : DB) (oid : Nat) :
    get_order_status db oid =
      ((db.order_tracking.filter (fun t => t.order_id == oid)).head?).map
        (fun t => t.status) ∧
    (db.order_tracking.filter (fun t => t.order_id == oid) = [] →
      get_order_status db oid = none) ∧
    (∀ t, db.order_tracking.filter (fun t' => t'.order_id == oid) = [t] →
      get_order_status db oid = some t.status) := by
  have h := find?_eq_head_filter (fun t : TrackingEntry => t.order_id == oid)
    db.order_tracking
  refine ⟨?_, ?_, ?_⟩
  · rw [get_order_status, h]
  · intro hf
    rw [get_order_status, h, hf]
    rfl
  · intro t hf
    rw [get_order_status, h, hf]
    rfl

/-- C8 (amended) witness: order 5 of `wdb4` has exactly one tracking
entry and its status is returned. -/
theorem get_order_status_spec_witness :
    get_order_status wdb4 5 = some "in progress" :=
  (get_order_status_spec wdb4 5).2.2 ⟨5, "in progress"⟩ (by decide)

/-- C2 counterexample: "pizza" has no exact (case-sensitive) match in
`cdb2`'s catalog, so by the claim the result should be `"not_found"`;
the partial-match fallback resolves it to "Pizza" and the call returns
`"removed"`. -/
theorem remove_resolves_unresolvable_name :
    lookupItem cdb2 "pizza" = none ∧
    (remove_from_session_order cdb2 "s2" "pizza" 1).1 = "removed" := by
  decide

/-- C6 counterexample: "Piz" matches no catalog name exactly, yet
`remove_from_session_order` resolves it by case-insensitive substring
matching and deletes the "Pizza" cart line. -/
theorem remove_uses_partial_matching :
    lookupItem cdb6 "Piz" = none ∧
    (remove_from_session_order cdb6 "s6" "Piz" 2).1 = "all_removed" ∧
    (remove_from_session_order cdb6 "s6" "Piz" 2).2.session_orders = [] := by
  decide

theorem find?_map_comm {α : Type _} (p : α → Bool) (f : α → α)
    (hf : ∀ a, p (f a) = p a) (l : List α) :
    (l.map f).find? p = (l.find? p).map f := by
  induction l with
  | nil => rfl
  | cons hd tl ih =>
    cases hb : p hd with
    | true =>
      rw [List.map_cons, List.find?_cons_of_pos _ (by rw [hf]; exact hb),
        List.find?_cons_of_pos _ hb]
      rfl
    | false =>
      rw [List.map_cons,
        List.find?_cons_of_neg _ (by rw [hf]; simp [hb]),
        List.find?_cons_of_neg _ (by simp [hb]), ih]

/-- C2 (amended): `remove_from_session_order` resolves the name by exact
match first and then by case-insensitive partial match; with resolution
understood that way, an unresolved name or a zero joined cart quantity
yields `"not_found"` and leaves the state unchanged; a cart quantity q
strictly greater than the requested k decrements the line to q − k with
result `"removed"`; a nonzero q ≤ k deletes the line entirely with
result `"all_removed"`. -/
theorem remove_tiebreak (db : DB) (s item : String) (k : Int) :
    (resolveForRemove db item = none →
      remove_from_session_order db s item k = ("not_found", db)) ∧
    (∀ m, resolveForRemove db item = some m →
      (cartQty db s m.item_id = 0 →
        remove_from_session_order db s item k = ("not_found", db)) ∧
      (cartQty db s m.item_id ≠ 0 → cartQty db s m.item_id > k →
        (remove_from_session_order db s item k).1 = "removed" ∧
        cartQty (remove_from_session_order db s item k).2 s m.item_id =
          cartQty db s m.item_id - k) ∧
      (cartQty db s m.item_id ≠ 0 → cartQty db s m.item_id ≤ k →
        (remove_from_session_order db s item k).1 = "all_removed" ∧
        ∀ l ∈ (remove_from_session_order db s item k).2.session_orders,
          ¬(l.session_id = s ∧ l.item_id = m.item_id))) := by
  constructor
  · intro h
    simp only [remove_from_session_order, h]
  · intro m hm
    refine ⟨?_, ?_, ?_⟩
    · intro h0
      simp only [remove_from_session_order, hm]
      rw [if_pos h0]
    · intro hne hgt
      have hres : remove_from_session_order db s item k =
          ("removed",
           { db with session_orders := db.session_orders.map (fun l =>
              if l.session_id == s && l.item_id == m.item_id then
                { l with quantity := l.quantity - k }
              else l) }) := by
        simp only [remove_from_session_order, hm]
        rw [if_neg hne, if_pos hgt]
      refine ⟨by rw [hres], ?_⟩
      rw [hres]
      simp only [cartQty]
      rw [find?_map_comm (fun l : CartLine => l.session_id == s && l.item_id == m.item_id)
        (fun l : CartLine =>
          if l.session_id == s && l.item_id == m.item_id then
            { l with quantity := l.quantity - k }
          else l)
        (fun a => by
          cases hb : (a.session_id == s && a.item_id == m.item_id) <;> simp [hb])]
      cases hf : db.session_orders.find?
          (fun l => l.session_id == s && l.item_id == m.item_id) with
      | none => exact absurd (by simp [cartQty, hf]) hne
      | some l =>
        have hpl : (l.session_id == s && l.item_id == m.item_id) = true :=
          List.find?_some (p := fun l : CartLine => l.session_id == s && l.item_id == m.item_id) hf
        have hprop : l.session_id = s ∧ l.item_id = m.item_id := by
          simpa using hpl
        simp [hpl, hprop]
    · intro hne hle
      have hres : remove_from_session_order db s item k =
          ("all_removed",
           { db with session_orders := db.session_orders.filter (fun l =>
              !(l.session_id == s && l.item_id == m.item_id)) }) := by
        simp only [remove_from_session_order, hm]
        rw [if_neg hne, if_neg (by omega)]
      refine ⟨by rw [hres], ?_⟩
      rw [hres]
      intro l hl hcontra
      have hcond := (List.mem_filter.mp hl).2
      obtain ⟨h1, h2⟩ := hcontra
      simp [h1, h2] at hcond

/-- C2 (amended) witness: with three "Pizza" in the cart, removing 3 is
`"all_removed"` and removing 2 is `"removed"`. -/
theorem remove_tiebreak_witness :
    (remove_from_session_order wdb2 "s" "Pizza" 3).1 = "all_removed" ∧
    (remove_from_session_order wdb2 "s" "Pizza" 2).1 = "removed" :=
  ⟨(((remove_tiebreak wdb2 "s" "Pizza" 3).2 ⟨1, "Pizza", 100⟩
      (by decide)).2.2 (by decide) (by decide)).1,
   (((remove_tiebreak wdb2 "s" "Pizza" 2).2 ⟨1, "Pizza", 100⟩
      (by decide)).2.1 (by decide) (by decide)).1⟩

/-- C6 (amended): resolution is not one uniform exact-match policy: the
add path (`lookupItem`) is exact and case-sensitive — an inexact name
makes the single add a reported no-op — while remove resolves by exact
match when one exists and otherwise falls back to case-insensitive
partial matching, returning `"not_found"` only when both fail. -/
theorem resolution_policy (db : DB) (s item : String) (k : Int) :
    (∀ m, db.food_items.find? (fun x => x.name == item) = some m →
      resolveForRemove db item = some m) ∧
    (db.food_items.find? (fun x => x.name == item) = none →
      resolveForRemove db item = db.food_items.find? (fuzzyMatch item)) ∧
    (db.food_items.find? (fun x => x.name == item) = none →
      db.food_items.find? (fuzzyMatch item) = none →
      remove_from_session_order db s item k = ("not_found", db)) ∧
    (lookupItem db item = none →
      update_session_order db s item k = (false, db)) := by
  refine ⟨?_, ?_, ?_, ?_⟩
  · intro m hm
    simp [resolveForRemove, hm]
  · intro hm
    simp [resolveForRemove, hm]
  · intro hm hf
    have hr : resolveForRemove db item = none := by
      simp [resolveForRemove, hm, hf]
    simp only [remove_from_session_order, hr]
  · intro hl
    simp [update_session_order, update_session_order_batch, hl]

/-- C6 (amended) witness: "Quinoa" resolves neither exactly nor
partially in `cdb2`, so remove reports `"not_found"` and the single add
is a reported no-op. -/
theorem resolution_policy_witness :
    remove_from_session_order cdb2 "s2" "Quinoa" 1 = ("not_found", cdb2) ∧
    update_session_order cdb2 "s2" "Quinoa" 1 = (false, cdb2) :=
  ⟨(resolution_policy cdb2 "s2" "Quinoa" 1).2.2.1 (by decide) (by decide),
   (resolution_policy cdb2 "s2" "Quinoa" 1).2.2.2 (by decide)⟩

theorem map_untouched {α : Type _} {f : α → α} {l : List α}
    (h : ∀ a ∈ l, f a = a) : l.map f = l := by
  calc l.map f = l.map id := List.map_congr_left h
    _ = l := List.map_id l

theorem cartKeys_map_of_preserve {f : CartLine → CartLine}
    (hf : ∀ l, (f l).session_id = l.session_id ∧ (f l).item_id = l.item_id)
    (lines : List CartLine) : cartKeys (lines.map f) = cartKeys lines := by
  simp only [cartKeys, List.map_map]
  refine List.map_congr_left ?_
  intro l _
  simp [Function.comp, (hf l).1, (hf l).2]

theorem upsert_keys_mem {lines : List CartLine} {s : String} {iid : Nat} (q : Int)
    (h : lines.any (fun l => l.session_id == s && l.item_id == iid) = true) :
    cartKeys (upsertLine lines s iid q) = cartKeys lines := by
  simp only [upsertLine, h, if_true]
  refine cartKeys_map_of_preserve ?_ lines
  intro l
  by_cases hc : (l.session_id == s && l.item_id == iid) = true
  · simp [hc]
  · simp [hc]

theorem upsert_fresh {lines : List CartLine} {s : String} {iid : Nat} (q : Int)
    (h : ∀ l ∈ lines, ¬(l.session_id = s ∧ l.item_id = iid)) :
    upsertLine lines s iid q = lines ++ [⟨s, iid, q⟩] := by
  have ha : lines.any (fun l => l.session_id == s && l.item_id == iid) = false := by
    rw [List.any_eq_false]
    intro l hl hc
    apply h l hl
    simpa using hc
  simp [upsertLine, ha]

theorem CartKeysNodup_upsert {lines : List CartLine} (s : String) (iid : Nat)
    (q : Int) (h : CartKeysNodup lines) :
    CartKeysNodup (upsertLine lines s iid q) := by
  cases ha : lines.any (fun l => l.session_id == s && l.item_id == iid) with
  | true =>
    unfold CartKeysNodup
    rw [upsert_keys_mem q ha]
    exact h
  | false =>
    have hfresh : ∀ l ∈ lines, ¬(l.session_id = s ∧ l.item_id = iid) := by
      intro l hl hc
      exact absurd (by simpa using hc) (List.any_eq_false.mp ha l hl)
    unfold CartKeysNodup
    rw [upsert_fresh q hfresh]
    simp only [cartKeys, List.map_append, List.map_cons, List.map_nil]
    rw [List.nodup_append]
    refine ⟨h, List.nodup_singleton _, ?_⟩
    intro a hal har
    rw [List.mem_singleton] at har
    subst har
    simp only [cartKeys, List.mem_map] at hal
    obtain ⟨l, hl, hkey⟩ := hal
    apply List.any_eq_false.mp ha l hl
    have h1 : l.session_id = s := congrArg Prod.fst hkey
    have h2 : l.item_id = iid := congrArg Prod.snd hkey
    simp [h1, h2]

theorem CartKeysNodup_foldl_upsert (db : DB) (s : String) :
    ∀ (items : List (String × Int)) (acc : List CartLine), CartKeysNodup acc →
      CartKeysNodup (items.foldl (fun acc p =>
        match lookupItem db p.1 with
        | some m => upsertLine acc s m.item_id p.2
        | none => acc) acc)
  | [], _, h => h
  | p :: rest, acc, h => by
    rw [List.foldl_cons]
    apply CartKeysNodup_foldl_upsert db s rest
    cases hl : lookupItem db p.1 with
    | none => simpa [hl] using h
    | some m =>
      simp only [hl]
      exact CartKeysNodup_upsert s m.item_id p.2 h

theorem CartKeysNodup_filter (p : CartLine → Bool) {lines : List CartLine}
    (h : CartKeysNodup lines) : CartKeysNodup (lines.filter p) :=
  List.Nodup.sublist (List.Sublist.map _ (List.filter_sublist _)) h

theorem CartKeysNodup_batch (db : DB) (s : String) (items : List (String × Int))
    (h : CartKeysNodup db.session_orders) :
    CartKeysNodup (update_session_order_batch db s items).2.session_orders := by
  simp only [update_session_order_batch]
  split
  · exact h
  · split
    · exact h
    · exact CartKeysNodup_foldl_upsert db s _ _ h

theorem CartKeysNodup_remove (db : DB) (s item : String) (k : Int)
    (h : CartKeysNodup db.session_orders) :
    CartKeysNodup (remove_from_session_order db s item k).2.session_orders := by
  simp only [remove_from_session_order]
  cases hr : resolveForRemove db item with
  | none => exact h
  | some m =>
    simp only []
    split
    · exact h
    · split
      · unfold CartKeysNodup
        rw [cartKeys_map_of_preserve (fun l => by
          by_cases hc : (l.session_id == s && l.item_id == m.item_id) = true
          · simp [hc]
          · simp [hc])]
        exact h
      · exact CartKeysNodup_filter _ h

theorem CartKeysNodup_applyOp (db : DB) (s : String) (op : CartOp)
    (h : CartKeysNodup db.session_orders) :
    CartKeysNodup (applyOp db s op).session_orders := by
  cases op with
  | add item qty => exact CartKeysNodup_batch db s [(item, qty)] h
  | addBatch items => exact CartKeysNodup_batch db s items h
  | remove item qty => exact CartKeysNodup_remove db s item qty h
  | clear => exact CartKeysNodup_filter _ h

theorem CartKeysNodup_applyOps :
    ∀ (ops : List (String × CartOp)) (db : DB), CartKeysNodup db.session_orders →
      CartKeysNodup (applyOps db ops).session_orders
  | [], _, h => h
  | (s, op) :: rest, db, h =>
    CartKeysNodup_applyOps rest _ (CartKeysNodup_applyOp db s op h)

theorem update_single_resolvable {db : DB} {s name : String} {q : Int}
    {m : MenuItem} (hm : lookupItem db name = some m) :
    update_session_order db s name q =
      (true,
       { db with session_orders := upsertLine db.session_orders s m.item_id q }) := by
  simp only [update_session_order, update_session_order_batch]
  have hfil : [(name, q)].filter (fun p => (lookupItem db p.1).isSome) = [(name, q)] := by
    simp [hm]
  rw [if_neg (by simp), hfil, if_neg (by simp)]
  simp only [List.foldl_cons, List.foldl_nil, hm]

/-- C3: two successive adds of the same resolvable item, starting with no
cart line for it, merge by summation into a single cart line with
quantity q1 + q2; and the uniqueness invariant — at most one cart line
per (session, item) key — is preserved by every sequence of add,
batch-add, remove, and clear operations. -/
theorem merge_and_uniqueness :
    (∀ (db : DB) (s name : String) (q1 q2 : Int) (m : MenuItem),
      lookupItem db name = some m →
      (∀ l ∈ db.session_orders, ¬(l.session_id = s ∧ l.item_id = m.item_id)) →
      cartQty (update_session_order
        (update_session_order db s name q1).2 s name q2).2 s m.item_id = q1 + q2 ∧
      ((update_session_order
        (update_session_order db s name q1).2 s name q2).2.session_orders.filter
          (fun l => l.session_id == s && l.item_id == m.item_id)).length = 1) ∧
    (∀ (db : DB) (ops : List (String × CartOp)), CartKeysNodup db.session_orders →
      CartKeysNodup (applyOps db ops).session_orders) := by
  constructor
  · intro db s name q1 q2 m hm hfresh
    rw [update_single_resolvable hm]
    rw [@update_single_resolvable
      { db with session_orders := upsertLine db.session_orders s m.item_id q1 }
      s name q2 m hm]
    rw [upsert_fresh q1 hfresh]
    have happ : upsertLine (db.session_orders ++ [CartLine.mk s m.item_id q1]) s
        m.item_id q2 = db.session_orders ++ [CartLine.mk s m.item_id (q1 + q2)] := by
      have ha : (db.session_orders ++ [CartLine.mk s m.item_id q1]).any
          (fun l => l.session_id == s && l.item_id == m.item_id) = true := by
        rw [List.any_eq_true]
        refine ⟨CartLine.mk s m.item_id q1, ?_, ?_⟩
        · simp
        · simp
      simp only [upsertLine, ha, if_true, List.map_append]
      congr 1
      · refine map_untouched ?_
        intro l hl
        rw [if_neg]
        intro hc
        exact hfresh l hl (by simpa using hc)
      · simp
    rw [happ]
    constructor
    · simp only [cartQty]
      have hnone : db.session_orders.find?
          (fun l => l.session_id == s && l.item_id == m.item_id) = none := by
        rw [List.find?_eq_none]
        intro l hl hc
        exact hfresh l hl (by simpa using hc)
      rw [List.find?_append, hnone]
      simp
    · rw [List.filter_append]
      have hfil0 : db.session_orders.filter
          (fun l => l.session_id == s && l.item_id == m.item_id) = [] := by
        rw [List.filter_eq_nil_iff]
        intro l hl hc
        exact hfresh l hl (by simpa using hc)
      rw [hfil0]
      simp
  · intro db ops h
    exact CartKeysNodup_applyOps ops db h

/-- C3 witness: adding 1 then 2 "Pizza" to an empty cart leaves quantity
1 + 2, and the uniqueness invariant survives a concrete op sequence. -/
theorem merge_and_uniqueness_witness :
    cartQty (update_session_order
      (update_session_order cdb7 "s" "Pizza" 1).2 "s" "Pizza" 2).2 "s" 1 = 1 + 2 ∧
    CartKeysNodup (applyOps cdb7
      [("s", CartOp.add "Pizza" 1), ("s", CartOp.remove "Pizza" 1)]).session_orders :=
  ⟨(merge_and_uniqueness.1 cdb7 "s" "Pizza" 1 2 ⟨1, "Pizza", 100⟩
      (by decide) (by decide)).1,
   merge_and_uniqueness.2 cdb7 _ List.nodup_nil⟩

theorem dictInsert_fresh {d : List (String × Int)} {k : String} (v : Int)
    (h : ∀ p ∈ d, p.1 ≠ k) : dictInsert d k v = d ++ [(k, v)] := by
  have ha : d.any (fun p => p.1 == k) = false := by
    rw [List.any_eq_false]
    intro p hp hc
    exact h p hp (by simpa using hc)
  simp [dictInsert, ha]

theorem foldl_dictInsert_fresh :
    ∀ (pairs acc : List (String × Int)),
      (pairs.map Prod.fst).Nodup →
      (∀ p ∈ pairs, ∀ q ∈ acc, q.1 ≠ p.1) →
      pairs.foldl (fun a p => dictInsert a p.1 p.2) acc = acc ++ pairs
  | [], acc, _, _ => by simp
  | p :: rest, acc, hnd, hfresh => by
    rw [List.foldl_cons]
    have hins : dictInsert acc p.1 p.2 = acc ++ [p] :=
      dictInsert_fresh p.2 (fun q hq => hfresh p (List.mem_cons_self _ _) q hq)
    rw [hins]
    have hnd2 : p.1 ∉ rest.map Prod.fst ∧ (rest.map Prod.fst).Nodup := by
      rw [List.map_cons] at hnd
      exact List.nodup_cons.mp hnd
    rw [foldl_dictInsert_fresh rest (acc ++ [p]) hnd2.2 ?_]
    · rw [List.append_assoc]
      rfl
    · intro r hr q hq
      rcases List.mem_append.mp hq with hq' | hq'
      · exact hfresh r (List.mem_cons_of_mem _ hr) q hq'
      · rw [List.mem_singleton] at hq'
        subst hq'
        intro hEq
        apply hnd2.1
        rw [hEq]
        exact List.mem_map_of_mem _ hr

theorem dictGet_of_nodup :
    ∀ {d : List (String × Int)}, (d.map Prod.fst).Nodup →
      ∀ {k : String} {v : Int}, (k, v) ∈ d → dictGet d k = some v := by
  intro d
  induction d with
  | nil =>
    intro _ k v h
    cases h
  | cons hd tl ih =>
    intro hn k v h
    have hn2 : hd.1 ∉ tl.map Prod.fst ∧ (tl.map Prod.fst).Nodup := by
      rw [List.map_cons] at hn
      exact List.nodup_cons.mp hn
    rcases List.mem_cons.mp h with heq | hmem
    · rw [← heq]
      unfold dictGet
      rw [List.find?_cons_of_pos (p := fun q : String × Int => q.1 == k) _ (by simp)]
      rfl
    · have hk : k ∈ tl.map Prod.fst := List.mem_map.mpr ⟨(k, v), hmem, rfl⟩
      have hne : ¬((fun p : String × Int => p.1 == k) hd = true) := by
        intro hc
        apply hn2.1
        rw [show hd.1 = k from by simpa using hc]
        exact hk
      unfold dictGet
      rw [List.find?_cons_of_neg (p := fun q : String × Int => q.1 == k) _ hne]
      exact ih hn2.2 hmem

theorem zip_effQty_keys (food_items : List String) (quantities : List QVal) :
    ((food_items.zip (padQuantities quantities food_items.length)).map
      (fun p => (p.1, effQty p.2))).map Prod.fst = food_items := by
  rw [List.map_map]
  have hc : (Prod.fst ∘ fun p : String × QVal => (p.1, effQty p.2)) =
      Prod.fst := rfl
  rw [hc]
  refine List.map_fst_zip _ _ ?_
  simp only [padQuantities, List.length_append, List.length_replicate]
  omega

theorem buildItemsToAdd_eq (food_items : List String) (quantities : List QVal)
    (hnd : food_items.Nodup) :
    buildItemsToAdd food_items quantities =
      (food_items.zip (padQuantities quantities food_items.length)).map
        (fun p => (p.1, effQty p.2)) := by
  unfold buildItemsToAdd
  have hstep : ∀ (l : List (String × QVal)) (acc : List (String × Int)),
      l.foldl (fun acc p =>
        match p.2 with
        | QVal.num n => dictInsert acc p.1 n
        | QVal.bad => dictInsert acc p.1 1) acc =
      l.foldl (fun acc p => dictInsert acc p.1 (effQty p.2)) acc := by
    intro l
    induction l with
    | nil => intro acc; rfl
    | cons hd tl ih =>
      intro acc
      rw [List.foldl_cons, List.foldl_cons, ih]
      cases hq : hd.2 <;> rfl
  rw [hstep]
  have hfm : (food_items.zip (padQuantities quantities food_items.length)).foldl
      (fun acc p => dictInsert acc p.1 (effQty p.2)) [] =
      ((food_items.zip (padQuantities quantities food_items.length)).map
        (fun p => (p.1, effQty p.2))).foldl
        (fun acc p => dictInsert acc p.1 p.2) [] := by
    rw [List.foldl_map]
  rw [hfm]
  rw [foldl_dictInsert_fresh _ [] (by rw [zip_effQty_keys]; exact hnd)
    (by intro p _ q hq; simp at hq)]
  rfl

/-- C10: in the add-items handler, an item whose quantity slot is
missing (the quantity list is shorter than the item list) or whose
quantity fails integer parsing is entered into the batch with a default
quantity of 1 rather than being rejected or skipped. -/
theorem add_defaults_missing_quantity_to_one
    (food_items : List String) (quantities : List QVal) (i : Nat)
    (hi : i < food_items.length) (hnd : food_items.Nodup)
    (hmiss : quantities.length ≤ i ∨ quantities[i]? = some QVal.bad) :
    dictGet (buildItemsToAdd food_items quantities)
      (food_items.get ⟨i, hi⟩) = some 1 := by
  have hip : i < (padQuantities quantities food_items.length).length := by
    simp only [padQuantities, List.length_append, List.length_replicate]
    omega
  rw [buildItemsToAdd_eq food_items quantities hnd]
  have h1 : food_items[i]? = some (food_items.get ⟨i, hi⟩) := by
    rw [List.getElem?_eq_getElem hi]
    rfl
  have h2 : (padQuantities quantities food_items.length)[i]? =
      some ((padQuantities quantities food_items.length).get ⟨i, hip⟩) := by
    rw [List.getElem?_eq_getElem hip]
    rfl
  have hz : (food_items.zip (padQuantities quantities food_items.length))[i]? =
      some (food_items.get ⟨i, hi⟩,
        (padQuantities quantities food_items.length).get ⟨i, hip⟩) :=
    List.getElem?_zip_eq_some.mpr ⟨h1, h2⟩
  have hmem := List.mem_map_of_mem (fun p : String × QVal => (p.1, effQty p.2))
    (List.getElem?_mem hz)
  have hget := dictGet_of_nodup (by rw [zip_effQty_keys]; exact hnd) hmem
  rw [hget]
  have hpad : (padQuantities quantities food_items.length)[i]? =
      some (QVal.num 1) ∨
      (padQuantities quantities food_items.length)[i]? = some QVal.bad := by
    rcases hmiss with hle | hbad
    · left
      rw [padQuantities, List.getElem?_append_right hle,
        List.getElem?_replicate_of_lt (by omega)]
    · right
      have hil : i < quantities.length := by
        by_contra hno
        rw [List.getElem?_eq_none (by omega)] at hbad
        cases hbad
      rw [padQuantities, List.getElem?_append_left hil]
      exact hbad
  rcases hpad with hp | hp <;>
    · rw [h2] at hp
      injection hp with hp
      rw [hp]
      rfl

/-- C10 witness: with items ["Pizza", "Samosa"] and a single quantity 2,
"Samosa" has no quantity slot and is entered with quantity 1. -/
theorem add_defaults_missing_quantity_to_one_witness :
    dictGet (buildItemsToAdd ["Pizza", "Samosa"] [QVal.num 2]) "Samosa" =
      some 1 :=
  add_defaults_missing_quantity_to_one ["Pizza", "Samosa"] [QVal.num 2] 1
    (by decide) (by decide) (Or.inl (by decide))

theorem lookupItem_mem_name {db : DB} {name : String} {m : MenuItem}
    (h : lookupItem db name = some m) : m ∈ db.food_items ∧ m.name = name := by
  refine ⟨List.mem_of_find?_eq_some h, ?_⟩
  have hp := List.find?_some (p := fun m : MenuItem => m.name == name) h
  simpa using hp

theorem item_id_inj {db : DB}
    (hids : (db.food_items.map (fun m => m.item_id)).Nodup)
    {m m' : MenuItem} (hm : m ∈ db.food_items) (hm' : m' ∈ db.food_items)
    (h : m.item_id = m'.item_id) : m = m' :=
  List.inj_on_of_nodup_map hids hm hm' h

theorem name_inj {db : DB}
    (hnames : (db.food_items.map (fun m => m.name)).Nodup)
    {m m' : MenuItem} (hm : m ∈ db.food_items) (hm' : m' ∈ db.food_items)
    (h : m.name = m'.name) : m = m' :=
  List.inj_on_of_nodup_map hnames hm hm' h

theorem pair_snd_nodup {s : String} :
    ∀ {ps : List (String × Nat)}, ps.Nodup → (∀ p ∈ ps, p.1 = s) →
      (ps.map Prod.snd).Nodup := by
  intro ps
  induction ps with
  | nil =>
    intro _ _
    simp
  | cons hd tl ih =>
    intro hnd hall
    obtain ⟨hni, htl⟩ := List.nodup_cons.mp hnd
    rw [List.map_cons, List.nodup_cons]
    refine ⟨?_, ih htl (fun p hp => hall p (List.mem_cons_of_mem _ hp))⟩
    intro hmem
    obtain ⟨p, hp, hsnd⟩ := List.mem_map.mp hmem
    apply hni
    have h1 : p.1 = s := hall p (List.mem_cons_of_mem _ hp)
    have h2 : hd.1 = s := hall hd (List.mem_cons_self _ _)
    have : p = hd := Prod.ext (h1.trans h2.symm) hsnd
    rw [← this]
    exact hp

theorem filtered_cart_ids_nodup {db : DB} {s : String}
    (hcart : CartKeysNodup db.session_orders) :
    ((db.session_orders.filter (fun l => l.session_id == s)).map
      (fun l => l.item_id)).Nodup := by
  have h1 : (cartKeys (db.session_orders.filter
      (fun l => l.session_id == s))).Nodup :=
    List.Nodup.sublist (List.Sublist.map _ (List.filter_sublist _)) hcart
  have h2 : ∀ p ∈ cartKeys (db.session_orders.filter
      (fun l => l.session_id == s)), p.1 = s := by
    intro p hp
    simp only [cartKeys, List.mem_map] at hp
    obtain ⟨l, hl, hkey⟩ := hp
    have hcond := (List.mem_filter.mp hl).2
    rw [← hkey]
    simpa using hcond
  have h3 := pair_snd_nodup h1 h2
  simpa [cartKeys, List.map_map, Function.comp] using h3

theorem filterMap_names_nodup {db : DB}
    (hnames : (db.food_items.map (fun m => m.name)).Nodup) :
    ∀ (ls : List CartLine), ((ls.map (fun l => l.item_id)).Nodup) →
      (ls.filterMap (fun l =>
        (db.food_items.find? (fun m => m.item_id == l.item_id)).map
          (fun m => m.name))).Nodup
  | [], _ => by simp
  | hd :: tl, hnd => by
    have hnd2 : hd.item_id ∉ tl.map (fun l => l.item_id) ∧
        (tl.map (fun l => l.item_id)).Nodup := by
      rw [List.map_cons] at hnd
      exact List.nodup_cons.mp hnd
    rw [List.filterMap_cons]
    cases hf : db.food_items.find? (fun m => m.item_id == hd.item_id) with
    | none =>
      simp only [hf, Option.map_none']
      exact filterMap_names_nodup hnames tl hnd2.2
    | some m =>
      simp only [hf, Option.map_some']
      rw [List.nodup_cons]
      refine ⟨?_, filterMap_names_nodup hnames tl hnd2.2⟩
      intro hmem
      obtain ⟨l, hl, hfl⟩ := List.mem_filterMap.mp hmem
      cases hf2 : db.food_items.find? (fun mm => mm.item_id == l.item_id) with
      | none =>
        rw [hf2] at hfl
        cases hfl
      | some m2 =>
        rw [hf2] at hfl
        have hname2 : m2.name = m.name := by
          simpa using hfl
        have hmm : m ∈ db.food_items :=
          List.mem_of_find?_eq_some hf
        have hm2m : m2 ∈ db.food_items :=
          List.mem_of_find?_eq_some hf2
        have hEq : m2 = m := name_inj hnames hm2m hmm hname2
        have hid1 : m.item_id = hd.item_id := by
          simpa using List.find?_some
            (p := fun m : MenuItem => m.item_id == hd.item_id) hf
        have hid2 : m2.item_id = l.item_id := by
          simpa using List.find?_some
            (p := fun mm : MenuItem => mm.item_id == l.item_id) hf2
        apply hnd2.1
        rw [show hd.item_id = l.item_id from by rw [← hid1, ← hEq, hid2]]
        exact List.mem_map_of_mem _ hl

theorem snap_names_nodup {db : DB} {s : String}
    (hcart : CartKeysNodup db.session_orders)
    (hnames : (db.food_items.map (fun m => m.name)).Nodup) :
    ((get_session_order db s).map Prod.fst).Nodup := by
  have hrw : (get_session_order db s).map Prod.fst =
      (db.session_orders.filter (fun l => l.session_id == s)).filterMap
        (fun l => (db.food_items.find? (fun m => m.item_id == l.item_id)).map
          (fun m => m.name)) := by
    simp only [get_session_order, List.map_filterMap, Option.map_map]
    refine congrArg (fun f => List.filterMap f
        (db.session_orders.filter (fun l => l.session_id == s))) ?_
    funext x
    cases hx : db.food_items.find? (fun m => m.item_id == x.item_id) <;>
      simp [hx]
  rw [hrw]
  exact filterMap_names_nodup hnames _ (filtered_cart_ids_nodup hcart)

theorem orderLinesOf_cons (db : DB) (oid : Nat) (p : String × Int)
    (tl : List (String × Int)) :
    orderLinesOf db oid (p :: tl) =
      match lookupItem db p.1 with
      | some m =>
        OrderLine.mk oid m.item_id p.2 (m.price * (p.2 : Rat)) ::
          orderLinesOf db oid tl
      | none => orderLinesOf db oid tl := by
  cases hl : lookupItem db p.1 with
  | none => simp [orderLinesOf, List.filterMap_cons, hl]
  | some m => simp [orderLinesOf, List.filterMap_cons, hl]

theorem orderLines_filter_singleton {db : DB} {oid : Nat}
    (hids : (db.food_items.map (fun mm => mm.item_id)).Nodup)
    {name : String} {qty : Int} {m : MenuItem}
    (hm : lookupItem db name = some m) :
    ∀ (snap : List (String × Int)), (snap.map Prod.fst).Nodup →
      (name, qty) ∈ snap →
      (orderLinesOf db oid snap).filter
        (fun o => o.order_id == oid && o.item_id == m.item_id) =
        [OrderLine.mk oid m.item_id qty (m.price * (qty : Rat))] := by
  intro snap
  induction snap with
  | nil =>
    intro _ hmem
    cases hmem
  | cons hd tl ih =>
    intro hnd hmem
    have hnd2 : hd.1 ∉ tl.map Prod.fst ∧ (tl.map Prod.fst).Nodup := by
      rw [List.map_cons] at hnd
      exact List.nodup_cons.mp hnd
    rcases List.mem_cons.mp hmem with heq | hmem2
    · have hn1 : hd.1 = name := by rw [← heq]
      have hq1 : hd.2 = qty := by rw [← heq]
      rw [orderLinesOf_cons, hn1, hq1]
      simp only [hm]
      rw [List.filter_cons_of_pos (by simp)]
      have htail : (orderLinesOf db oid tl).filter
          (fun o => o.order_id == oid && o.item_id == m.item_id) = [] := by
        rw [List.filter_eq_nil_iff]
        intro o ho hP
        obtain ⟨p, hp, hfp⟩ := List.mem_filterMap.mp ho
        cases hl2 : lookupItem db p.1 with
        | none =>
          rw [hl2] at hfp
          cases hfp
        | some m2 =>
          rw [hl2] at hfp
          have ho2 : o = OrderLine.mk oid m2.item_id p.2
              (m2.price * (p.2 : Rat)) := by
            simpa using hfp.symm
          subst ho2
          have hPm : m2.item_id = m.item_id := by
            have hPe := Bool.and_eq_true_iff.mp hP
            simpa using hPe.2
          have hm1 := lookupItem_mem_name hm
          have hm2 := lookupItem_mem_name hl2
          have hEq : m2 = m := item_id_inj hids hm2.1 hm1.1 hPm
          apply hnd2.1
          have hng : name = p.1 := by rw [← hm1.2, ← hEq, hm2.2]
          rw [hn1, hng]
          exact List.mem_map_of_mem _ hp
      rw [htail]
    · cases hhd : lookupItem db hd.1 with
      | none =>
        rw [orderLinesOf_cons]
        simp only [hhd]
        exact ih hnd2.2 hmem2
      | some m3 =>
        rw [orderLinesOf_cons]
        simp only [hhd]
        rw [List.filter_cons_of_neg ?_]
        · exact ih hnd2.2 hmem2
        · intro hP
          have hPm : m3.item_id = m.item_id := by
            have hPe := Bool.and_eq_true_iff.mp hP
            simpa using hPe.2
          have hm1 := lookupItem_mem_name hm
          have hm3 := lookupItem_mem_name hhd
          have hEq : m3 = m := item_id_inj hids hm3.1 hm1.1 hPm
          apply hnd2.1
          rw [show hd.1 = name from by rw [← hm3.2, hEq, hm1.2]]
          exact List.mem_map_of_mem _ hmem2

theorem filter_not_filter {α : Type _} (p : α → Bool) (l : List α) :
    (l.filter (fun a => !(p a))).filter p = [] := by
  rw [List.filter_eq_nil_iff]
  intro a ha hp
  have hcond := (List.mem_filter.mp ha).2
  simp [hp] at hcond

/-- C1: when the session snapshot contains at least one resolvable name,
finalize succeeds with the freshly allocated order id; afterwards the
session cart is empty, exactly one order line exists under the new id
for each originally-resolvable (item, quantity) pair — carrying that
quantity and line total price × quantity — exactly one tracking entry
with status "in progress" exists for the new id, and the returned total
is the sum of price × quantity over the resolvable snapshot entries. -/
theorem finalize_success_spec (db : DB) (s : String)
    (hids : (db.food_items.map (fun m => m.item_id)).Nodup)
    (hnames : (db.food_items.map (fun m => m.name)).Nodup)
    (hcart : CartKeysNodup db.session_orders)
    (htrack : ∀ t ∈ db.order_tracking, t.order_id ≠ get_next_order_id db)
    (hres : ∃ p ∈ get_session_order db s, (lookupItem db p.1).isSome) :
    ∃ total db2,
      finalize_order_and_get_total db s (get_session_order db s) =
        (some (get_next_order_id db), total, db2) ∧
      get_session_order db2 s = [] ∧
      (∀ name qty m, (name, qty) ∈ get_session_order db s →
        lookupItem db name = some m →
        db2.orders.filter (fun o =>
          o.order_id == get_next_order_id db && o.item_id == m.item_id) =
          [OrderLine.mk (get_next_order_id db) m.item_id qty
            (m.price * (qty : Rat))]) ∧
      db2.order_tracking.filter
        (fun t => t.order_id == get_next_order_id db) =
        [TrackingEntry.mk (get_next_order_id db) "in progress"] ∧
      total = ((get_session_order db s).filterMap (fun p =>
        (lookupItem db p.1).map (fun m => m.price * (p.2 : Rat)))).sum := by
  have hlines_ne : orderLinesOf db (get_next_order_id db)
      (get_session_order db s) ≠ [] := by
    obtain ⟨p, hp, hsome⟩ := hres
    intro hnil
    unfold orderLinesOf at hnil
    rw [List.filterMap_eq_nil_iff] at hnil
    have h0 := hnil p hp
    cases hl : lookupItem db p.1 with
    | none =>
      rw [hl] at hsome
      cases hsome
    | some mm =>
      rw [hl] at h0
      simp at h0
  have hsnap_ne : get_session_order db s ≠ [] := by
    intro h
    apply hlines_ne
    rw [h]
    rfl
  have hfe : finalize_order_and_get_total db s (get_session_order db s) =
      (some (get_next_order_id db),
       ((orderLinesOf db (get_next_order_id db)
          (get_session_order db s)).map (fun o => o.total_price)).sum,
       { db with
          orders := db.orders ++ orderLinesOf db (get_next_order_id db)
            (get_session_order db s)
          order_tracking := db.order_tracking ++
            [TrackingEntry.mk (get_next_order_id db) "in progress"]
          session_orders := db.session_orders.filter
            (fun l => !(l.session_id == s)) }) := by
    rw [finalize_eq]
    rw [if_neg (by simpa [List.isEmpty_iff] using hsnap_ne),
      if_neg (by simpa [List.isEmpty_iff] using hlines_ne)]
  refine ⟨_, _, hfe, ?_, ?_, ?_, ?_⟩
  · show get_session_order
      { db with
        orders := db.orders ++ orderLinesOf db (get_next_order_id db)
          (get_session_order db s)
        order_tracking := db.order_tracking ++
          [TrackingEntry.mk (get_next_order_id db) "in progress"]
        session_orders := db.session_orders.filter
          (fun l => !(l.session_id == s)) } s = []
    simp only [get_session_order]
    rw [filter_not_filter]
    rfl
  · intro name qty m hmem hm
    show (db.orders ++ orderLinesOf db (get_next_order_id db)
        (get_session_order db s)).filter
        (fun o => o.order_id == get_next_order_id db &&
          o.item_id == m.item_id) = _
    rw [List.filter_append]
    have hold : db.orders.filter (fun o =>
        o.order_id == get_next_order_id db && o.item_id == m.item_id) = [] := by
      rw [List.filter_eq_nil_iff]
      intro o ho hP
      have hlt := order_id_lt_next ho
      have hoid : o.order_id = get_next_order_id db := by
        have hPe := Bool.and_eq_true_iff.mp hP
        simpa using hPe.1
      omega
    rw [hold, List.nil_append]
    exact orderLines_filter_singleton hids hm (get_session_order db s)
      (snap_names_nodup hcart hnames) hmem
  · show (db.order_tracking ++
        [TrackingEntry.mk (get_next_order_id db) "in progress"]).filter
        (fun t => t.order_id == get_next_order_id db) = _
    rw [List.filter_append]
    have hold : db.order_tracking.filter
        (fun t => t.order_id == get_next_order_id db) = [] := by
      rw [List.filter_eq_nil_iff]
      intro t ht hP
      exact htrack t ht (by simpa using hP)
    rw [hold, List.nil_append]
    rw [List.filter_cons_of_pos (by simp)]
    rfl
  · show ((orderLinesOf db (get_next_order_id db)
        (get_session_order db s)).map (fun o => o.total_price)).sum = _
    congr 1
    simp only [orderLinesOf, List.map_filterMap, Option.map_map]
    refine congrArg (fun f => List.filterMap f (get_session_order db s)) ?_
    funext x
    cases hx : lookupItem db x.1 <;> simp [hx]

/-- C1 witness: session `w` of `wdb1` holds two "Pizza" and one
"Chole Bhature"; its finalize succeeds with the concrete hypotheses
discharged by evaluation. -/
theorem finalize_success_spec_witness :
    ∃ total db2,
      finalize_order_and_get_total wdb1 "w" (get_session_order wdb1 "w") =
        (some (get_next_order_id wdb1), total, db2) ∧
      get_session_order db2 "w" = [] ∧
      (∀ name qty m, (name, qty) ∈ get_session_order wdb1 "w" →
        lookupItem wdb1 name = some m →
        db2.orders.filter (fun o =>
          o.order_id == get_next_order_id wdb1 && o.item_id == m.item_id) =
          [OrderLine.mk (get_next_order_id wdb1) m.item_id qty
            (m.price * (qty : Rat))]) ∧
      db2.order_tracking.filter
        (fun t => t.order_id == get_next_order_id wdb1) =
        [TrackingEntry.mk (get_next_order_id wdb1) "in progress"] ∧
      total = ((get_session_order wdb1 "w").filterMap (fun p =>
        (lookupItem wdb1 p.1).map (fun m => m.price * (p.2 : Rat)))).sum :=
  finalize_success_spec wdb1 "w" (by decide) (by decide)
    (by unfold CartKeysNodup; decide) (by decide) (by decide)

end ByteBowl
